import Mathlib

/-!
Verification development for the local-network blog service (`src/app.py`).

Strings from the Python code are modelled as `List Char`.  The handlers are
embedded as pure functions over an explicit database/filesystem state; the
wall clock (`datetime.utcnow()`) is passed in explicitly.  Machine-level
details that no claim depends on (the floating-point rendering of
`utcnow().timestamp()` and werkzeug's `secure_filename`, an external
collaborator) are abstracted as parameters of the request environment.
-/

namespace Blog

/-! ### Generic text helpers (models of Python's `str` operations) -/

/-- Model of Python `str.strip()` on the left: drop leading whitespace. -/
def trimLeft (s : List Char) : List Char := s.dropWhile Char.isWhitespace

/-- Model of Python `str.strip()`: drop leading and trailing whitespace. -/
def trim (s : List Char) : List Char :=
  ((s.dropWhile Char.isWhitespace).reverse.dropWhile Char.isWhitespace).reverse

/-- Model of Python `str.split(sep)` for a one-character separator.
`splitOnChar c []` is `[[]]`, matching `"".split(".") == [""]`. -/
def splitOnChar (sep : Char) : List Char → List (List Char)
  | [] => [[]]
  | c :: rest =>
    if c = sep then [] :: splitOnChar sep rest
    else
      match splitOnChar sep rest with
      | [] => [[c]]
      | x :: xs => (c :: x) :: xs

/-- Value of a big-endian digit string, `foldl`-style (`"127" ↦ 127`). -/
def digitsVal (s : List Char) : Nat :=
  s.foldl (fun acc c => acc * 10 + (c.toNat - '0'.toNat)) 0

/-- Model of Python `str(n)` for a natural number: decimal digits, no sign,
no leading zeros (`"0"` for zero). -/
def natChars (n : Nat) : List Char :=
  if n = 0 then ['0'] else ((Nat.digits 10 n).map Nat.digitChar).reverse

/-- Model of the `int(text)` builtin on the digit part (Python allows single
underscores between digits, e.g. `int("1_6") == 16`).  Returns `none` exactly
when Python raises `ValueError`.  (Non-ASCII digits are not modelled.) -/
def digitGroups? (s : List Char) : Option Nat :=
  if (splitOnChar '_' s).all (fun g => !g.isEmpty && g.all Char.isDigit) then
    some (digitsVal (s.filter (fun c => c ≠ '_')))
  else none

/-- Model of Python's `int(text)` builtin: strip surrounding whitespace, an
optional sign, then grouped decimal digits; `none` models `ValueError`. -/
def pyInt? (s : List Char) : Option Int :=
  match trim s with
  | [] => none
  | c :: rest =>
    if c = '+' then (digitGroups? rest).map Int.ofNat
    else if c = '-' then (digitGroups? rest).map (fun n => -(Int.ofNat n))
    else (digitGroups? (c :: rest)).map Int.ofNat

/-! ### Access Filter (`is_private_ip`, `limit_to_local_network`) -/

/-- Translation of `is_private_ip` (src/app.py lines 32-45).  The Python
function tests string prefixes `"127."`, `"10."`, `"192.168."`, `"172."`
and, in the `172` case, parses the second dot-separated field with `int`,
returning `False` on `IndexError`/`ValueError`. -/
def is_private_ip (ip : List Char) : Bool :=
  if List.isPrefixOf "127.".toList ip then true
  else if List.isPrefixOf "10.".toList ip then true
  else if List.isPrefixOf "192.168.".toList ip then true
  else if List.isPrefixOf "172.".toList ip then
    match (splitOnChar '.' ip).get? 1 with
    | none => false
    | some fld =>
      match pyInt? fld with
      | none => false
      | some n => decide (16 ≤ n ∧ n ≤ 31)
  else false

/-- Error taxonomy of the service (HTTP-style statuses raised by `abort`).
`badRequest` carries the abort message distinguishing the two 400 sites. -/
inductive Err : Type
  | badRequest (msg : List Char)
  | notFound
  | forbidden
  | fatal
deriving DecidableEq

/-- The spec's `UnsupportedMediaType` classification: the service reports a
disallowed image type as `abort(400, "Unsupported image type.")`
(src/app.py line 165), propagated with status 400 as the spec's §4.4
directs. -/
def Err.unsupportedMediaType : Err := Err.badRequest "Unsupported image type.".toList

/-- The `abort(400, "Title and body are required.")` error of `create_post`. -/
def Err.emptyTitleBody : Err := Err.badRequest "Title and body are required.".toList

/-- The `abort(400, "Comment body is required.")` error of `add_comment`. -/
def Err.emptyCommentBody : Err := Err.badRequest "Comment body is required.".toList

/-- Translation of
`request.headers.get("X-Forwarded-For", request.remote_addr or "")`
(src/app.py line 50): the forwarded-for header when present, else the peer
address, else the empty string. -/
def resolveRemote (xff peer : Option (List Char)) : List Char :=
  match xff with
  | some v => v
  | none => peer.getD []

/-- Translation of the `limit_to_local_network` before-request hook
(src/app.py lines 48-52): abort 403 when the resolved address is non-empty
and not private; otherwise let the request continue (`none`). -/
def limit_to_local_network (xff peer : Option (List Char)) : Option Err :=
  let remote := resolveRemote xff peer
  if remote ≠ [] ∧ is_private_ip remote = false then some Err.forbidden else none

/-- Rendering of a dotted-quad IPv4 address from its four octets. -/
def renderQuad (a b c d : Nat) : List Char :=
  natChars a ++ '.' :: (natChars b ++ '.' :: (natChars c ++ '.' :: natChars d))

/-! ### Timestamps -/

/-- A UTC timestamp at second precision (`datetime.utcnow()` as stored by
`isoformat(timespec="seconds")`). -/
structure DateTime : Type where
  year : Nat
  month : Nat
  day : Nat
  hour : Nat
  minute : Nat
  second : Nat
deriving DecidableEq

/-- A calendar date, the value SQLite's `date(created_at)` projects out. -/
structure CalDate : Type where
  year : Nat
  month : Nat
  day : Nat
deriving DecidableEq

/-- The calendar date a timestamp falls on (SQLite `date(created_at)`). -/
def dateOf (t : DateTime) : CalDate := ⟨t.year, t.month, t.day⟩

/-- Lexicographic order on equal-length `Nat` lists, as a boolean. -/
def natListLe : List Nat → List Nat → Bool
  | [], _ => true
  | _ :: _, [] => false
  | a :: as, b :: bs => decide (a < b) || (decide (a = b) && natListLe as bs)

/-- The comparison key of a timestamp. -/
def DateTime.key (t : DateTime) : List Nat :=
  [t.year, t.month, t.day, t.hour, t.minute, t.second]

/-- Chronological order on timestamps, the order SQLite's
`datetime(created_at)` comparison realises on the stored text. -/
def dtLe (a b : DateTime) : Prop := natListLe a.key b.key = true

instance : DecidablePred (fun p : DateTime × DateTime => dtLe p.1 p.2) :=
  fun _ => instDecidableEqBool _ _

instance (a b : DateTime) : Decidable (dtLe a b) := instDecidableEqBool _ _

/-- Left-pad a digit string with zeros to width `w`. -/
def padZ (w : Nat) (s : List Char) : List Char :=
  List.replicate (w - s.length) '0' ++ s

/-- `YYYY-MM-DD` rendering of a calendar date (SQLite `date()` output, the
format of the `?date=` query parameter). -/
def renderDate (d : CalDate) : List Char :=
  padZ 4 (natChars d.year) ++ '-' :: padZ 2 (natChars d.month)
    ++ '-' :: padZ 2 (natChars d.day)

/-- The stored `created_at` text:
`datetime.utcnow().isoformat(timespec="seconds")`, i.e.
`YYYY-MM-DDTHH:MM:SS` (src/app.py lines 172 and 192). -/
def isoTimestamp (t : DateTime) : List Char :=
  renderDate (dateOf t) ++ 'T' :: padZ 2 (natChars t.hour)
    ++ ':' :: padZ 2 (natChars t.minute) ++ ':' :: padZ 2 (natChars t.second)

/-! ### Data model (`posts` and `comments` tables, upload directory) -/

/-- A row of the `posts` table. -/
structure Post : Type where
  id : Nat
  title : List Char
  body : List Char
  image_filename : Option (List Char)
  created_at : DateTime
deriving DecidableEq

/-- A row of the `comments` table. -/
structure Comment : Type where
  id : Nat
  post_id : Nat
  author : List Char
  body : List Char
  created_at : DateTime
deriving DecidableEq

/-- The persistent state: the two tables with their autoincrement counters,
and the set of file names present in the upload directory. -/
structure BlogState : Type where
  posts : List Post
  comments : List Comment
  files : List (List Char)
  nextPostId : Nat
  nextCommentId : Nat
deriving DecidableEq

/-- The freshly initialised store (`init_db` on an absent database file). -/
def emptyState : BlogState := ⟨[], [], [], 1, 1⟩

/-- Per-request environment: the wall clock reading, the
`datetime.utcnow().timestamp()` rendering used as the upload-name prefix,
and werkzeug's `secure_filename` (an external collaborator, §1 of the
spec), abstracted as a function. -/
structure Env : Type where
  now : DateTime
  stamp : List Char
  sanitize : List Char → List Char

/-- An uploaded file as received by `request.files.get("image")`; Flask's
`FileStorage` is truthy and carries a client-supplied `filename`. -/
structure UploadedFile : Type where
  filename : List Char
deriving DecidableEq

/-- The form of a `POST /post` request. -/
structure CreateReq : Type where
  title : List Char
  body : List Char
  image : Option UploadedFile

/-- The form of a `POST /comment/<post_id>` request; `none` fields model a
missing form key (`form.get` default applies). -/
structure CommentReq : Type where
  author : Option (List Char)
  body : Option (List Char)

/-! ### Upload Manager (`allowed_file`) and route handlers -/

/-- Extensions accepted for image uploads (src/app.py line 24). -/
def ALLOWED_EXTENSIONS : List (List Char) :=
  ["png".toList, "jpg".toList, "jpeg".toList, "gif".toList, "webp".toList]

/-- Python `s.rsplit(".", 1)[1]` for a string containing a dot: the text
after the last dot. -/
def afterLastDot (s : List Char) : List Char :=
  (s.reverse.takeWhile (fun c => c ≠ '.')).reverse

/-- Translation of `allowed_file` (src/app.py lines 108-109):
`"." in filename and filename.rsplit(".", 1)[1].lower() in
ALLOWED_EXTENSIONS`. -/
def allowed_file (filename : List Char) : Bool :=
  filename.contains '.'
    && ALLOWED_EXTENSIONS.contains ((afterLastDot filename).map Char.toLower)

/-- The composed upload name
`f"{datetime.utcnow().timestamp()}_{secure_filename(file.filename)}"`
(src/app.py line 166). -/
def composedName (env : Env) (orig : List Char) : List Char :=
  env.stamp ++ '_' :: env.sanitize orig

/-- `INSERT INTO posts ...` (src/app.py lines 170-173): append a row under
the next autoincrement id. -/
def insertPost (s : BlogState) (title body : List Char)
    (img : Option (List Char)) (now : DateTime) : BlogState :=
  { s with
    posts := s.posts ++ [⟨s.nextPostId, title, body, img, now⟩]
    nextPostId := s.nextPostId + 1 }

/-- `INSERT INTO comments ...` (src/app.py lines 190-193): append a row
under the next autoincrement id.  The store itself does not check the
`post_id`; the existence check lives in the handler. -/
def insertComment (s : BlogState) (pid : Nat) (author body : List Char)
    (now : DateTime) : BlogState :=
  { s with
    comments := s.comments ++ [⟨s.nextCommentId, pid, author, body, now⟩]
    nextCommentId := s.nextCommentId + 1 }

/-- `file.save(UPLOAD_DIR / filename)`: the name now exists in the upload
directory. -/
def writeFile (s : BlogState) (name : List Char) : BlogState :=
  { s with files := s.files ++ [name] }

/-- Translation of the `create_post` handler (src/app.py lines 154-175).
Returns the state after the request together with `some` error when the
handler aborts; every abort happens before the corresponding mutation, as
in the source. -/
def create_post (env : Env) (s : BlogState) (req : CreateReq) :
    BlogState × Option Err :=
  let title := trim req.title
  let body := trim req.body
  if title = [] ∨ body = [] then (s, some Err.emptyTitleBody)
  else
    match req.image with
    | none => (insertPost s title body none env.now, none)
    | some f =>
      if f.filename = [] then (insertPost s title body none env.now, none)
      else if allowed_file f.filename = false then
        (s, some Err.unsupportedMediaType)
      else
        let name := composedName env f.filename
        (insertPost (writeFile s name) title body (some name) env.now, none)

/-- Translation of the `add_comment` handler (src/app.py lines 178-195):
default the author, trim the body and abort 400 when empty, then resolve
the post (`SELECT id FROM posts WHERE id = ?`) and abort 404 when absent,
then insert. -/
def add_comment (now : DateTime) (s : BlogState) (pid : Nat)
    (req : CommentReq) : BlogState × Option Err :=
  let author :=
    let a := trim (req.author.getD "Anonymous".toList)
    if a = [] then "Anonymous".toList else a
  let body := trim (req.body.getD [])
  if body = [] then (s, some Err.emptyCommentBody)
  else
    match s.posts.find? (fun p => p.id == pid) with
    | none => (s, some Err.notFound)
    | some _ => (insertComment s pid author body now, none)

/-- Translation of the `delete_post` handler (src/app.py lines 198-216):
resolve the post (404 when absent), delete its comments then the post row
and commit, then best-effort unlink of the image file.  `unlinkOk` is the
filesystem oracle: `false` means `Path.unlink` raises, which surfaces as a
fatal error *after* the commit, leaving the database deletion in place. -/
def delete_post (s : BlogState) (pid : Nat) (unlinkOk : Bool) :
    BlogState × Option Err :=
  match s.posts.find? (fun p => p.id == pid) with
  | none => (s, some Err.notFound)
  | some post =>
    let s1 : BlogState :=
      { s with
        comments := s.comments.filter (fun c => !(c.post_id == pid))
        posts := s.posts.filter (fun p => !(p.id == pid)) }
    match post.image_filename with
    | none => (s1, none)
    | some name =>
      if s1.files.contains name then
        if unlinkOk then
          ({ s1 with files := s1.files.filter (fun f => !(f == name)) }, none)
        else (s1, some Err.fatal)
      else (s1, none)

/-- Descending order on posts by `created_at`
(`ORDER BY datetime(created_at) DESC`). -/
def postGe (a b : Post) : Prop := dtLe b.created_at a.created_at

instance : DecidableRel postGe := fun _ _ => instDecidableEqBool _ _

/-- Translation of the posts query of the `index` handler (src/app.py
lines 115-124): with a date filter,
`SELECT * FROM posts WHERE date(created_at) = ? ORDER BY datetime(created_at) DESC`;
without, the same minus the `WHERE`.  SQL result order is modelled by
sorting under the (total, transitive) `postGe` relation. -/
def listPosts (s : BlogState) (filter : Option CalDate) : List Post :=
  match filter with
  | some d => List.insertionSort postGe (s.posts.filter (fun p => dateOf p.created_at == d))
  | none => List.insertionSort postGe s.posts

/-! ### Lemmas about decimal renderings -/

/-- The ten decimal digit characters. -/
def decChars : List Char := ['0', '1', '2', '3', '4', '5', '6', '7', '8', '9']

theorem digitChar_mem_decChars {d : Nat} (hd : d < 10) :
    Nat.digitChar d ∈ decChars := by
  interval_cases d <;> decide

theorem natChars_subset_decChars {n : Nat} {c : Char} (hc : c ∈ natChars n) :
    c ∈ decChars := by
  unfold natChars at hc
  split at hc
  · simp only [List.mem_singleton] at hc
    simp [hc, decChars]
  · rw [List.mem_reverse, List.mem_map] at hc
    obtain ⟨d, hd, rfl⟩ := hc
    exact digitChar_mem_decChars (Nat.digits_lt_base (by norm_num) hd)

theorem decChars_digit {c : Char} (hc : c ∈ decChars) : c.isDigit = true := by
  fin_cases hc <;> decide

theorem decChars_not_ws {c : Char} (hc : c ∈ decChars) :
    c.isWhitespace = false := by
  fin_cases hc <;> decide

theorem decChars_ne {c : Char} (hc : c ∈ decChars) :
    c ≠ '.' ∧ c ≠ '_' ∧ c ≠ '+' ∧ c ≠ '-' ∧ c ≠ 'T' := by
  fin_cases hc <;> decide

theorem digitsVal_append (xs : List Char) (c : Char) :
    digitsVal (xs ++ [c]) = digitsVal xs * 10 + (c.toNat - '0'.toNat) := by
  unfold digitsVal
  rw [List.foldl_append]
  rfl

theorem digitsVal_digits (ds : List Nat) (h : ∀ d ∈ ds, d < 10) :
    digitsVal ((ds.map Nat.digitChar).reverse) = Nat.ofDigits 10 ds := by
  induction ds with
  | nil => rfl
  | cons d tl ih =>
    have hd : d < 10 := h d (List.mem_cons_self d tl)
    have hval : (Nat.digitChar d).toNat - '0'.toNat = d := by
      interval_cases d <;> decide
    rw [List.map_cons, List.reverse_cons, digitsVal_append,
      ih (fun x hx => h x (List.mem_cons_of_mem d hx)), Nat.ofDigits_cons, hval]
    ring

theorem digitsVal_natChars (n : Nat) : digitsVal (natChars n) = n := by
  unfold natChars
  split
  · simp_all [digitsVal]
  · rw [digitsVal_digits _ (fun d hd => Nat.digits_lt_base (by norm_num) hd),
      Nat.ofDigits_digits]

theorem natChars_inj {m n : Nat} (h : natChars m = natChars n) : m = n := by
  have := digitsVal_natChars m
  rw [h, digitsVal_natChars] at this
  exact this.symm

theorem natChars_ne_nil (n : Nat) : natChars n ≠ [] := by
  unfold natChars
  split
  · simp
  · simp [Nat.digits_ne_nil_iff_ne_zero, *]

/-! ### Prefix, split and parse lemmas for dotted-quad strings -/

theorem prefix_through_dot {D A E t : List Char} (hD : '.' ∉ D) (hA : '.' ∉ A) :
    (D ++ '.' :: E) <+: (A ++ '.' :: t) ↔ D = A ∧ E <+: t := by
  induction D generalizing A with
  | nil =>
    cases A with
    | nil => simp [List.cons_prefix_cons]
    | cons a as =>
      have ha : a ≠ '.' := fun h => hA (h ▸ List.mem_cons_self a as)
      constructor
      · intro h
        rw [List.nil_append, List.cons_append, List.cons_prefix_cons] at h
        exact absurd h.1.symm ha
      · intro h
        exact absurd h.1.symm (List.cons_ne_nil a as)
  | cons x xs ih =>
    have hx : x ≠ '.' := fun h => hD (h ▸ List.mem_cons_self x xs)
    cases A with
    | nil => simp [List.cons_prefix_cons, hx]
    | cons a as =>
      have hA2 : '.' ∉ as := fun h => hA (List.mem_cons_of_mem a h)
      have hD2 : '.' ∉ xs := fun h => hD (List.mem_cons_of_mem x h)
      simp [List.cons_prefix_cons, ih hD2 hA2, and_assoc]

theorem splitOnChar_cons (sep c : Char) (rest : List Char) :
    splitOnChar sep (c :: rest) =
      if c = sep then [] :: splitOnChar sep rest
      else
        match splitOnChar sep rest with
        | [] => [[c]]
        | x :: xs => (c :: x) :: xs := rfl

theorem splitOnChar_append {sep : Char} {A : List Char} (rest : List Char)
    (hA : sep ∉ A) :
    splitOnChar sep (A ++ sep :: rest) = A :: splitOnChar sep rest := by
  induction A with
  | nil => simp [splitOnChar]
  | cons c cs ih =>
    have hc : c ≠ sep := fun h => hA (h ▸ List.mem_cons_self c cs)
    have h2 : sep ∉ cs := fun h => hA (List.mem_cons_of_mem c h)
    rw [List.cons_append, splitOnChar_cons, if_neg hc, ih h2]

theorem splitOnChar_of_not_mem {sep : Char} {A : List Char} (hA : sep ∉ A) :
    splitOnChar sep A = [A] := by
  induction A with
  | nil => rfl
  | cons c cs ih =>
    have hc : c ≠ sep := fun h => hA (h ▸ List.mem_cons_self c cs)
    have h2 : sep ∉ cs := fun h => hA (List.mem_cons_of_mem c h)
    rw [splitOnChar_cons, if_neg hc, ih h2]

theorem dropWhile_eq_self_of_not {p : Char → Bool} {l : List Char}
    (h : ∀ c ∈ l, p c = false) : l.dropWhile p = l := by
  cases l with
  | nil => rfl
  | cons c cs =>
    rw [List.dropWhile_cons_of_neg]
    simp [h c (List.mem_cons_self c cs)]

theorem trim_of_no_ws {l : List Char}
    (h : ∀ c ∈ l, c.isWhitespace = false) : trim l = l := by
  unfold trim
  rw [dropWhile_eq_self_of_not h,
    dropWhile_eq_self_of_not (fun c hc => h c (List.mem_reverse.mp hc)),
    List.reverse_reverse]

theorem digitGroups?_digits {s : List Char} (hne : s ≠ [])
    (hd : ∀ c ∈ s, c ∈ decChars) : digitGroups? s = some (digitsVal s) := by
  have hnu : '_' ∉ s := fun h => ((decChars_ne (hd '_' h)).2.1) rfl
  unfold digitGroups?
  rw [splitOnChar_of_not_mem hnu, if_pos]
  · rw [List.filter_eq_self.mpr (fun c hc => by
      simpa using (decChars_ne (hd c hc)).2.1)]
  · rcases s with _ | ⟨c, cs⟩
    · exact absurd rfl hne
    · simp only [List.all_cons, List.all_nil, Bool.and_true, List.isEmpty_cons,
        Bool.not_false, Bool.true_and]
      exact List.all_eq_true.mpr (fun x hx => decChars_digit (hd x hx))

theorem pyInt?_digits {s : List Char} (hne : s ≠ [])
    (hd : ∀ c ∈ s, c ∈ decChars) : pyInt? s = some (Int.ofNat (digitsVal s)) := by
  have hnw : ∀ c ∈ s, c.isWhitespace = false := fun c hc => decChars_not_ws (hd c hc)
  unfold pyInt?
  rw [trim_of_no_ws hnw]
  rcases s with _ | ⟨c, cs⟩
  · exact absurd rfl hne
  · have hc : c ∈ decChars := hd c (List.mem_cons_self c cs)
    have hcp : c ≠ '+' := (decChars_ne hc).2.2.1
    have hcm : c ≠ '-' := (decChars_ne hc).2.2.2.1
    show (if c = '+' then Option.map Int.ofNat (digitGroups? cs)
      else if c = '-' then Option.map (fun n => -Int.ofNat n) (digitGroups? cs)
      else Option.map Int.ofNat (digitGroups? (c :: cs))) = _
    rw [if_neg hcp, if_neg hcm, digitGroups?_digits hne hd]
    rfl

theorem pyInt?_natChars (n : Nat) : pyInt? (natChars n) = some (Int.ofNat n) := by
  rw [pyInt?_digits (natChars_ne_nil n) (fun c hc => natChars_subset_decChars hc),
    digitsVal_natChars]

/-! ### The Access Filter on well-formed dotted-quad addresses -/

theorem natChars_dot_free (n : Nat) : '.' ∉ natChars n :=
  fun h => (decChars_ne (natChars_subset_decChars h)).1 rfl

theorem natChars_eq_natChars {m n : Nat} : natChars m = natChars n ↔ m = n :=
  ⟨natChars_inj, fun h => h ▸ rfl⟩

theorem natChars_127 : natChars 127 = "127".toList := by
  norm_num [natChars, Nat.digits_def']
  decide

theorem natChars_10 : natChars 10 = "10".toList := by
  norm_num [natChars, Nat.digits_def']
  decide

theorem natChars_192 : natChars 192 = "192".toList := by
  norm_num [natChars, Nat.digits_def']
  decide

theorem natChars_168 : natChars 168 = "168".toList := by
  norm_num [natChars, Nat.digits_def']
  decide

theorem natChars_172 : natChars 172 = "172".toList := by
  norm_num [natChars, Nat.digits_def']
  decide

theorem quad_pre_iff {D : List Char} {k : Nat} (hD : '.' ∉ D)
    (hk : natChars k = D) (a : Nat) (rest : List Char) :
    List.isPrefixOf (D ++ ['.']) (natChars a ++ '.' :: rest) = true ↔ a = k := by
  rw [List.isPrefixOf_iff_prefix,
    show (D ++ ['.'] : List Char) = D ++ '.' :: [] from rfl,
    prefix_through_dot hD (natChars_dot_free a), ← hk, natChars_eq_natChars]
  simp [eq_comm]

theorem pre_127 (a : Nat) (rest : List Char) :
    List.isPrefixOf "127.".toList (natChars a ++ '.' :: rest) = true ↔ a = 127 :=
  quad_pre_iff (by decide) natChars_127 a rest

theorem pre_10 (a : Nat) (rest : List Char) :
    List.isPrefixOf "10.".toList (natChars a ++ '.' :: rest) = true ↔ a = 10 :=
  quad_pre_iff (by decide) natChars_10 a rest

theorem pre_172 (a : Nat) (rest : List Char) :
    List.isPrefixOf "172.".toList (natChars a ++ '.' :: rest) = true ↔ a = 172 :=
  quad_pre_iff (by decide) natChars_172 a rest

theorem pre_192168 (a b : Nat) (rest : List Char) :
    List.isPrefixOf "192.168.".toList
      (natChars a ++ '.' :: (natChars b ++ '.' :: rest)) = true ↔
      a = 192 ∧ b = 168 := by
  rw [List.isPrefixOf_iff_prefix,
    show ("192.168.".toList : List Char)
      = "192".toList ++ '.' :: ("168".toList ++ '.' :: []) from rfl,
    prefix_through_dot (by decide) (natChars_dot_free a),
    prefix_through_dot (by decide) (natChars_dot_free b),
    ← natChars_192, ← natChars_168, natChars_eq_natChars, natChars_eq_natChars]
  simp [eq_comm]

theorem second_field (a b c d : Nat) :
    (splitOnChar '.' (renderQuad a b c d)).get? 1 = some (natChars b) := by
  rw [renderQuad, splitOnChar_append _ (natChars_dot_free a),
    splitOnChar_append _ (natChars_dot_free b)]
  rfl

/-- `is_private_ip` on a well-formed dotted quad holds exactly on the four
private ranges of the spec. -/
theorem is_private_ip_renderQuad (a b c d : Nat) :
    is_private_ip (renderQuad a b c d) = true ↔
      a = 127 ∨ a = 10 ∨ (a = 192 ∧ b = 168) ∨ (a = 172 ∧ 16 ≤ b ∧ b ≤ 31) := by
  have hq : renderQuad a b c d
      = natChars a ++ '.' :: (natChars b ++ '.' :: (natChars c ++ '.' :: natChars d)) := rfl
  unfold is_private_ip
  by_cases h127 : a = 127
  · rw [if_pos (hq ▸ (pre_127 a _).mpr h127)]
    simp [h127]
  · rw [if_neg (fun hh => h127 ((pre_127 a _).mp (hq ▸ hh)))]
    by_cases h10 : a = 10
    · rw [if_pos (hq ▸ (pre_10 a _).mpr h10)]
      simp [h10]
    · rw [if_neg (fun hh => h10 ((pre_10 a _).mp (hq ▸ hh)))]
      by_cases h192 : a = 192 ∧ b = 168
      · rw [if_pos (hq ▸ (pre_192168 a b _).mpr h192)]
        simp [h192.1, h192.2]
      · rw [if_neg (fun hh => h192 ((pre_192168 a b _).mp (hq ▸ hh)))]
        by_cases h172 : a = 172
        · rw [if_pos (hq ▸ (pre_172 a _).mpr h172), second_field]
          show (match pyInt? (natChars b) with
            | none => false
            | some n => decide (16 ≤ n ∧ n ≤ 31)) = true ↔ _
          rw [pyInt?_natChars]
          show decide (16 ≤ Int.ofNat b ∧ Int.ofNat b ≤ 31) = true ↔ _
          rw [decide_eq_true_iff, Int.ofNat_eq_coe]
          constructor
          · intro hbb
            exact Or.inr (Or.inr (Or.inr ⟨h172, by omega, by omega⟩))
          · rintro (h | h | h | ⟨_, hb1, hb2⟩)
            · exact absurd h h127
            · exact absurd h h10
            · exact absurd h h192
            · exact ⟨by omega, by omega⟩
        · rw [if_neg (fun hh => h172 ((pre_172 a _).mp (hq ▸ hh)))]
          simp [h127, h10, h192, h172]

/-- A string opening with `"172."` whose second dot-separated field does not
parse as an `int` is classified non-private (the `except` branch of
`is_private_ip`). -/
theorem is_private_ip_bad_second {s fld : List Char}
    (hpre : List.isPrefixOf "172.".toList s = true)
    (hfld : (splitOnChar '.' s).get? 1 = some fld)
    (hbad : pyInt? fld = none) : is_private_ip s = false := by
  obtain ⟨t, rfl⟩ := List.isPrefixOf_iff_prefix.mp hpre
  unfold is_private_ip
  rw [if_neg (by simp [List.isPrefixOf]), if_neg (by simp [List.isPrefixOf]),
    if_neg (by simp [List.isPrefixOf]), if_pos hpre, hfld]
  show (match pyInt? fld with
    | none => false
    | some n => decide (16 ≤ n ∧ n ≤ 31)) = false
  rw [hbad]

theorem renderQuad_ne_nil (a b c d : Nat) : renderQuad a b c d ≠ [] := by
  unfold renderQuad
  intro h
  exact natChars_ne_nil a (List.append_eq_nil.mp h).1

theorem limit_eq_none_iff (v : List Char) (p : Option (List Char)) :
    limit_to_local_network (some v) p = none ↔ v = [] ∨ is_private_ip v = true := by
  show (if v ≠ [] ∧ is_private_ip v = false then some Err.forbidden else none) = none ↔ _
  by_cases hv : v = []
  · rw [if_neg (fun hcon => hcon.1 hv)]
    simp [hv]
  · by_cases hp : is_private_ip v = true
    · rw [if_neg (fun hcon => by simp [hp] at hcon)]
      simp [hp]
    · have hp2 : is_private_ip v = false := by simpa using hp
      rw [if_pos ⟨hv, hp2⟩]
      simp [hv, hp2]

theorem limit_eq_forbidden_iff (v : List Char) (p : Option (List Char)) :
    limit_to_local_network (some v) p = some Err.forbidden ↔
      v ≠ [] ∧ is_private_ip v = false := by
  show (if v ≠ [] ∧ is_private_ip v = false then some Err.forbidden else none)
      = some Err.forbidden ↔ _
  by_cases hv : v = []
  · rw [if_neg (fun hcon => hcon.1 hv)]
    simp [hv]
  · by_cases hp : is_private_ip v = true
    · rw [if_neg (fun hcon => by simp [hp] at hcon)]
      simp [hp]
    · have hp2 : is_private_ip v = false := by simpa using hp
      rw [if_pos ⟨hv, hp2⟩]
      simp [hv, hp2]

theorem renderQuad_concrete : renderQuad 172 16 0 1 = "172.16.0.1".toList := by
  norm_num [renderQuad, natChars, Nat.digits_def']
  decide

/-- **C1**: on a dotted-quad origin address the Access Filter admits the
request exactly when the address lies in 127.0.0.0/8, 10.0.0.0/8,
192.168.0.0/16 or 172.16.0.0/12 (second octet 16–31); a `172.`-string whose
second octet does not parse is rejected with Forbidden; every rejection is
with Forbidden; and the checked address is the forwarded-for header when
present, else the peer address. -/
theorem c1_access_filter (a b c d : Nat)
    (ha : a ≤ 255) (hb : b ≤ 255) (hc : c ≤ 255) (hd : d ≤ 255)
    (peer : Option (List Char)) (s fld : List Char)
    (hpre : List.isPrefixOf "172.".toList s = true)
    (hfld : (splitOnChar '.' s).get? 1 = some fld)
    (hbad : pyInt? fld = none) :
    (limit_to_local_network (some (renderQuad a b c d)) peer = none ↔
      a = 127 ∨ a = 10 ∨ (a = 192 ∧ b = 168) ∨ (a = 172 ∧ 16 ≤ b ∧ b ≤ 31))
    ∧ (∀ xff p, limit_to_local_network xff p = none
        ∨ limit_to_local_network xff p = some Err.forbidden)
    ∧ limit_to_local_network (some s) peer = some Err.forbidden
    ∧ (∀ v p, resolveRemote (some v) p = v)
    ∧ (∀ p, resolveRemote none (some p) = p) := by
  refine ⟨?_, ?_, ?_, fun v p => rfl, fun p => rfl⟩
  · rw [limit_eq_none_iff]
    simp [renderQuad_ne_nil a b c d, is_private_ip_renderQuad]
  · intro xff p
    show (if resolveRemote xff p ≠ [] ∧ is_private_ip (resolveRemote xff p) = false
        then some Err.forbidden else none) = none ∨
      (if resolveRemote xff p ≠ [] ∧ is_private_ip (resolveRemote xff p) = false
        then some Err.forbidden else none) = some Err.forbidden
    split
    · exact Or.inr rfl
    · exact Or.inl rfl
  · rw [limit_eq_forbidden_iff]
    refine ⟨?_, is_private_ip_bad_second hpre hfld hbad⟩
    obtain ⟨t, rfl⟩ := List.isPrefixOf_iff_prefix.mp hpre
    simp

/-- Witness for C1: `172.16.0.1` admitted, `172.15.0.1` rejected, and the
unparseable `172.x.0.1` rejected. -/
theorem c1_access_filter_witness :
    limit_to_local_network (some "172.16.0.1".toList) none = none
    ∧ limit_to_local_network (some (renderQuad 172 15 0 1)) none = some Err.forbidden
    ∧ limit_to_local_network (some "172.x.0.1".toList) none = some Err.forbidden := by
  have h16 := c1_access_filter 172 16 0 1 (by decide) (by decide) (by decide) (by decide)
    none "172.x.0.1".toList "x".toList (by decide) (by decide) (by decide)
  have h15 := c1_access_filter 172 15 0 1 (by decide) (by decide) (by decide) (by decide)
    none "172.x.0.1".toList "x".toList (by decide) (by decide) (by decide)
  refine ⟨?_, ?_, h16.2.2.1⟩
  · rw [← renderQuad_concrete]
    exact h16.1.mpr (by decide)
  · refine (h15.2.1 (some (renderQuad 172 15 0 1)) none).resolve_left (fun hno => ?_)
    have := h15.1.mp hno
    omega

/-- **C9** (implicit): an empty resolved origin address is admitted; the
filter rejects only a non-empty address classified non-private, and then
always with Forbidden. -/
theorem c9_empty_remote_admitted :
    limit_to_local_network none none = none
    ∧ (∀ xff peer, resolveRemote xff peer = [] →
        limit_to_local_network xff peer = none)
    ∧ (∀ xff peer e, limit_to_local_network xff peer = some e →
        e = Err.forbidden ∧ resolveRemote xff peer ≠ []
          ∧ is_private_ip (resolveRemote xff peer) = false) := by
  refine ⟨rfl, ?_, ?_⟩
  · intro xff peer h
    unfold limit_to_local_network
    simp [h]
  · intro xff peer e h
    have h2 : (if resolveRemote xff peer ≠ []
          ∧ is_private_ip (resolveRemote xff peer) = false
        then some Err.forbidden else none) = some e := h
    split at h2
    · next hcond =>
      injection h2 with he
      subst he
      exact ⟨rfl, hcond.1, hcond.2⟩
    · exact absurd h2 (by simp)

/-- Witness for C9: rejection of `9.9.9.9` is with Forbidden, on a
non-empty, non-private address. -/
theorem c9_empty_remote_admitted_witness :
    Err.forbidden = Err.forbidden
    ∧ resolveRemote (some "9.9.9.9".toList) none ≠ []
    ∧ is_private_ip (resolveRemote (some "9.9.9.9".toList) none) = false :=
  c9_empty_remote_admitted.2.2 (some "9.9.9.9".toList) none Err.forbidden (by decide)

/-! ### Create-post claims -/

/-- **C3**: a create-post request whose title or body trims to empty fails
with the `BadRequest` of `abort(400, "Title and body are required.")` and
returns the state unchanged — no post row, no file, no mutation at all. -/
theorem c3_create_post_empty_fields (env : Env) (s : BlogState) (req : CreateReq)
    (h : trim req.title = [] ∨ trim req.body = []) :
    create_post env s req = (s, some Err.emptyTitleBody) := by
  rcases h with h | h <;> simp [create_post, h]

/-- Witness for C3: whitespace-only title on a concrete store. -/
theorem c3_create_post_empty_fields_witness :
    create_post ⟨⟨2024, 1, 1, 0, 0, 0⟩, "1".toList, fun x => x⟩ emptyState
      ⟨"   ".toList, "hello".toList, none⟩ = (emptyState, some Err.emptyTitleBody) :=
  c3_create_post_empty_fields _ _ _ (Or.inl (by decide))

/-- **C4**: with valid title/body, an attached file with a non-empty
filename is rejected with the spec's `UnsupportedMediaType` classification
(`abort(400, "Unsupported image type.")`) unless its extension is allowed
case-insensitively, and on rejection the state is unchanged (nothing
written, no post inserted); with an allowed extension the file is written
and the post inserted.  `payload.exe` is rejected, `photo.PNG` accepted. -/
theorem c4_upload_validation (env : Env) (s : BlogState) (req : CreateReq)
    (f : UploadedFile) (himg : req.image = some f) (hfn : f.filename ≠ [])
    (ht : trim req.title ≠ []) (hb : trim req.body ≠ []) :
    (allowed_file f.filename = false →
      create_post env s req = (s, some Err.unsupportedMediaType))
    ∧ (allowed_file f.filename = true →
      create_post env s req =
        (insertPost (writeFile s (composedName env f.filename)) (trim req.title)
          (trim req.body) (some (composedName env f.filename)) env.now, none))
    ∧ allowed_file "payload.exe".toList = false
    ∧ allowed_file "photo.PNG".toList = true
    ∧ Err.unsupportedMediaType = Err.badRequest "Unsupported image type.".toList := by
  refine ⟨?_, ?_, by decide, by decide, rfl⟩
  · intro hna
    simp [create_post, himg, hfn, hna, ht, hb]
  · intro hyes
    simp [create_post, himg, hfn, hyes, ht, hb]

/-- Witness for C4: a `payload.exe` upload rejected on a concrete store. -/
theorem c4_upload_validation_witness :
    create_post ⟨⟨2024, 1, 1, 0, 0, 0⟩, "1".toList, fun x => x⟩ emptyState
      ⟨"t".toList, "b".toList, some ⟨"payload.exe".toList⟩⟩
      = (emptyState, some Err.unsupportedMediaType) :=
  (c4_upload_validation _ _ _ _ rfl (by decide) (by decide) (by decide)).1 (by decide)

/-- **C10** (implicit): a file field carrying an empty filename is treated
as no attachment: the extension gate is skipped (even though
`allowed_file ""` is false), no file is written, and the post is inserted
with a null `image_filename`. -/
theorem c10_empty_filename (env : Env) (s : BlogState) (req : CreateReq)
    (f : UploadedFile) (himg : req.image = some f) (hfn : f.filename = [])
    (ht : trim req.title ≠ []) (hb : trim req.body ≠ []) :
    create_post env s req
      = (insertPost s (trim req.title) (trim req.body) none env.now, none)
    ∧ (insertPost s (trim req.title) (trim req.body) none env.now).files = s.files
    ∧ (insertPost s (trim req.title) (trim req.body) none env.now).posts
      = s.posts ++ [⟨s.nextPostId, trim req.title, trim req.body, none, env.now⟩]
    ∧ allowed_file f.filename = false := by
  refine ⟨?_, rfl, rfl, by rw [hfn]; decide⟩
  simp [create_post, himg, hfn, ht, hb]

/-- Witness for C10: empty filename upload on a concrete store succeeds
with no image. -/
theorem c10_empty_filename_witness :
    create_post ⟨⟨2024, 1, 1, 0, 0, 0⟩, "1".toList, fun x => x⟩ emptyState
      ⟨"t".toList, "b".toList, some ⟨[]⟩⟩
      = (insertPost emptyState "t".toList "b".toList none ⟨2024, 1, 1, 0, 0, 0⟩, none) :=
  (c10_empty_filename _ _ _ _ rfl rfl (by decide) (by decide)).1

/-! ### Add-comment claims -/

/-- **C2**, counterexample: on the empty store (post id 1 absent) with an
empty comment body, `add_comment` fails with the body-validation
`BadRequest`, not with `NotFound` — the code validates the body *before*
resolving the post (src/app.py lines 181-188). -/
theorem c2_counterexample :
    add_comment ⟨2024, 1, 1, 0, 0, 0⟩ emptyState 1
        ⟨some "Alice".toList, some "".toList⟩
      = (emptyState, some Err.emptyCommentBody)
    ∧ Err.emptyCommentBody ≠ Err.notFound
    ∧ emptyState.posts.find? (fun p => p.id == 1) = none := by
  exact ⟨rfl, by decide, rfl⟩

/-- **C2**, amended: `add_comment` validates the trimmed body first
(`BadRequest` when empty); when the body is non-empty and the target post
id is absent it fails with `NotFound` and inserts no comment row. -/
theorem c2_add_comment_not_found (now : DateTime) (s : BlogState) (pid : Nat)
    (req : CommentReq) (hbody : trim (req.body.getD []) ≠ [])
    (habs : s.posts.find? (fun p => p.id == pid) = none) :
    add_comment now s pid req = (s, some Err.notFound)
    ∧ (∀ req2 : CommentReq, trim (req2.body.getD []) = [] →
        add_comment now s pid req2 = (s, some Err.emptyCommentBody)) := by
  constructor
  · simp [add_comment, hbody, habs]
  · intro req2 h2
    simp [add_comment, h2]

/-- Witness for C2's amended claim: nonexistent post id 1, non-empty body. -/
theorem c2_add_comment_not_found_witness :
    add_comment ⟨2024, 1, 1, 0, 0, 0⟩ emptyState 1
        ⟨none, some "nice post".toList⟩
      = (emptyState, some Err.notFound) :=
  (c2_add_comment_not_found ⟨2024, 1, 1, 0, 0, 0⟩ emptyState 1
    ⟨none, some "nice post".toList⟩ (by decide) rfl).1

/-! ### Delete-post claim -/

theorem delete_post_found_db (s : BlogState) (pid : Nat) (ok : Bool)
    (post : Post) (hfind : s.posts.find? (fun p => p.id == pid) = some post) :
    (delete_post s pid ok).1.posts = s.posts.filter (fun p => !(p.id == pid))
    ∧ (delete_post s pid ok).1.comments
      = s.comments.filter (fun c => !(c.post_id == pid)) := by
  cases himg : post.image_filename with
  | none => simp [delete_post, hfind, himg]
  | some name =>
    simp only [delete_post, hfind, himg]
    split
    · split
      · exact ⟨rfl, rfl⟩
      · exact ⟨rfl, rfl⟩
    · exact ⟨rfl, rfl⟩

/-- **C5**: deleting a present post removes exactly its row and its
comments (frame: every other row survives), regardless of whether the
best-effort file unlink succeeds; an absent id fails `NotFound` leaving the
state unchanged; the image file is removed on a successful unlink, and an
unlink failure surfaces as a fatal error *without* undoing the committed
database deletion. -/
theorem c5_delete_post (s : BlogState) (pid : Nat) (ok : Bool) :
    (s.posts.find? (fun p => p.id == pid) = none →
      delete_post s pid ok = (s, some Err.notFound))
    ∧ (∀ post, s.posts.find? (fun p => p.id == pid) = some post →
      ((delete_post s pid ok).1.posts = s.posts.filter (fun p => !(p.id == pid))
      ∧ (delete_post s pid ok).1.comments
        = s.comments.filter (fun c => !(c.post_id == pid))
      ∧ (∀ p : Post, p ∈ (delete_post s pid ok).1.posts ↔ p ∈ s.posts ∧ ¬p.id = pid)
      ∧ (∀ c : Comment,
          c ∈ (delete_post s pid ok).1.comments ↔ c ∈ s.comments ∧ ¬c.post_id = pid)
      ∧ (post.image_filename = none →
          (delete_post s pid ok).2 = none ∧ (delete_post s pid ok).1.files = s.files)
      ∧ (∀ name, post.image_filename = some name → s.files.contains name = true →
          (ok = true → (delete_post s pid ok).2 = none
            ∧ (delete_post s pid ok).1.files
              = s.files.filter (fun g => !(g == name)))
          ∧ (ok = false → (delete_post s pid ok).2 = some Err.fatal
            ∧ (delete_post s pid ok).1.files = s.files)))) := by
  constructor
  · intro habs
    unfold delete_post
    rw [habs]
  · intro post hfind
    obtain ⟨hp, hc⟩ := delete_post_found_db s pid ok post hfind
    refine ⟨hp, hc, ?_, ?_, ?_, ?_⟩
    · intro p
      rw [hp, List.mem_filter]
      simp
    · intro c
      rw [hc, List.mem_filter]
      simp
    · intro himg
      simp [delete_post, hfind, himg]
    · intro name himg hmem
      have hm2 : name ∈ s.files := by simpa using hmem
      constructor
      · rintro rfl
        simp [delete_post, hfind, himg, hm2]
      · rintro rfl
        simp [delete_post, hfind, himg, hm2]

/-- Witness for C5: deleting post 1 from a two-post store with a comment on
each removes exactly post 1 and its comment. -/
theorem c5_delete_post_witness :
    (delete_post
        ⟨[⟨1, "a".toList, "b".toList, none, ⟨2024, 1, 1, 0, 0, 0⟩⟩,
          ⟨2, "c".toList, "d".toList, none, ⟨2024, 1, 2, 0, 0, 0⟩⟩],
         [⟨1, 1, "x".toList, "y".toList, ⟨2024, 1, 1, 1, 0, 0⟩⟩,
          ⟨2, 2, "u".toList, "v".toList, ⟨2024, 1, 2, 1, 0, 0⟩⟩],
         [], 3, 3⟩ 1 true).1.posts
      = [⟨2, "c".toList, "d".toList, none, ⟨2024, 1, 2, 0, 0, 0⟩⟩]
    ∧ (delete_post
        ⟨[⟨1, "a".toList, "b".toList, none, ⟨2024, 1, 1, 0, 0, 0⟩⟩,
          ⟨2, "c".toList, "d".toList, none, ⟨2024, 1, 2, 0, 0, 0⟩⟩],
         [⟨1, 1, "x".toList, "y".toList, ⟨2024, 1, 1, 1, 0, 0⟩⟩,
          ⟨2, 2, "u".toList, "v".toList, ⟨2024, 1, 2, 1, 0, 0⟩⟩],
         [], 3, 3⟩ 1 true).1.comments
      = [⟨2, 2, "u".toList, "v".toList, ⟨2024, 1, 2, 1, 0, 0⟩⟩] := by
  have h := (c5_delete_post
    ⟨[⟨1, "a".toList, "b".toList, none, ⟨2024, 1, 1, 0, 0, 0⟩⟩,
      ⟨2, "c".toList, "d".toList, none, ⟨2024, 1, 2, 0, 0, 0⟩⟩],
     [⟨1, 1, "x".toList, "y".toList, ⟨2024, 1, 1, 1, 0, 0⟩⟩,
      ⟨2, 2, "u".toList, "v".toList, ⟨2024, 1, 2, 1, 0, 0⟩⟩],
     [], 3, 3⟩ 1 true).2
    ⟨1, "a".toList, "b".toList, none, ⟨2024, 1, 1, 0, 0, 0⟩⟩ (by decide)
  exact ⟨h.1.trans (by decide), h.2.1.trans (by decide)⟩

/-! ### Order lemmas for the listing claim -/

theorem natListLe_refl : ∀ xs : List Nat, natListLe xs xs = true := by
  intro xs
  induction xs with
  | nil => rfl
  | cons a as ih => simp [natListLe, ih]

theorem natListLe_total : ∀ xs ys : List Nat,
    natListLe xs ys = true ∨ natListLe ys xs = true := by
  intro xs
  induction xs with
  | nil => intro ys; exact Or.inl rfl
  | cons a as ih =>
    intro ys
    cases ys with
    | nil => exact Or.inr rfl
    | cons b bs =>
      rcases Nat.lt_trichotomy a b with h | h | h
      · left
        simp [natListLe, h]
      · subst h
        rcases ih bs with h2 | h2
        · left
          simp [natListLe, h2]
        · right
          simp [natListLe, h2]
      · right
        simp [natListLe, h]

theorem natListLe_trans : ∀ xs ys zs : List Nat, natListLe xs ys = true →
    natListLe ys zs = true → natListLe xs zs = true := by
  intro xs
  induction xs with
  | nil => intro ys zs h1 h2; rfl
  | cons a as ih =>
    intro ys zs h1 h2
    cases ys with
    | nil => simp [natListLe] at h1
    | cons b bs =>
      cases zs with
      | nil => simp [natListLe] at h2
      | cons c cs =>
        simp only [natListLe, Bool.or_eq_true, Bool.and_eq_true,
          decide_eq_true_eq] at h1 h2 ⊢
        rcases h1 with h1 | ⟨he1, hr1⟩ <;> rcases h2 with h2 | ⟨he2, hr2⟩
        · exact Or.inl (by omega)
        · exact Or.inl (by omega)
        · exact Or.inl (by omega)
        · exact Or.inr ⟨by omega, ih bs cs hr1 hr2⟩

instance : IsTotal Post postGe :=
  ⟨fun a b => natListLe_total b.created_at.key a.created_at.key⟩

instance : IsTrans Post postGe :=
  ⟨fun _ _ _ h1 h2 => natListLe_trans _ _ _ h2 h1⟩

theorem padZ_subset {w : Nat} {s : List Char} {c : Char} (h : c ∈ padZ w s) :
    c = '0' ∨ c ∈ s := by
  unfold padZ at h
  rcases List.mem_append.mp h with h | h
  · exact Or.inl (List.eq_of_mem_replicate h)
  · exact Or.inr h

theorem T_not_in_padZ (w n : Nat) : 'T' ∉ padZ w (natChars n) := fun h =>
  (padZ_subset h).elim (fun hh => absurd hh (by decide))
    (fun hh => (decChars_ne (natChars_subset_decChars hh)).2.2.2.2 rfl)

theorem T_not_in_renderDate (d : CalDate) : 'T' ∉ renderDate d := by
  intro h
  unfold renderDate at h
  rcases List.mem_append.mp h with h | h
  · rcases List.mem_append.mp h with h | h
    · exact T_not_in_padZ 4 d.year h
    · rcases List.mem_cons.mp h with h | h
      · exact absurd h (by decide)
      · exact T_not_in_padZ 2 d.month h
  · rcases List.mem_cons.mp h with h | h
    · exact absurd h (by decide)
    · exact T_not_in_padZ 2 d.day h

theorem T_in_isoTimestamp (t : DateTime) : 'T' ∈ isoTimestamp t := by
  unfold isoTimestamp
  simp

/-- **C6**: listing without a filter returns all stored posts in descending
`created_at` order; with a date filter it returns exactly the posts whose
`created_at` falls on that calendar date, in descending order; and the
match is by parsed date value — raw string equality between the stored
`isoformat` text and the filter date string never holds, so it could not
produce these results. -/
theorem c6_listing (s : BlogState) (d : CalDate) :
    List.Perm (listPosts s none) s.posts
    ∧ List.Sorted postGe (listPosts s none)
    ∧ List.Perm (listPosts s (some d))
        (s.posts.filter (fun p => dateOf p.created_at == d))
    ∧ List.Sorted postGe (listPosts s (some d))
    ∧ (∀ p : Post, p ∈ listPosts s (some d) ↔ p ∈ s.posts ∧ dateOf p.created_at = d)
    ∧ (∀ t : DateTime, isoTimestamp t ≠ renderDate d) := by
  refine ⟨List.perm_insertionSort postGe s.posts,
    List.sorted_insertionSort postGe s.posts,
    List.perm_insertionSort postGe _,
    List.sorted_insertionSort postGe _, ?_, ?_⟩
  · intro p
    show p ∈ List.insertionSort postGe _ ↔ _
    rw [List.mem_insertionSort, List.mem_filter]
    simp
  · intro t h
    exact absurd (h ▸ T_in_isoTimestamp t) (T_not_in_renderDate d)

/-- Witness for C6: the membership characterisation evaluated on a concrete
two-post store and the date 2024-01-01. -/
theorem c6_listing_witness :
    ⟨1, "a".toList, "b".toList, none, ⟨2024, 1, 1, 9, 30, 0⟩⟩ ∈
      listPosts
        ⟨[⟨1, "a".toList, "b".toList, none, ⟨2024, 1, 1, 9, 30, 0⟩⟩,
          ⟨2, "c".toList, "d".toList, none, ⟨2024, 1, 2, 0, 0, 0⟩⟩],
         [], [], 3, 1⟩ (some ⟨2024, 1, 1⟩) ↔
      (⟨1, "a".toList, "b".toList, none, ⟨2024, 1, 1, 9, 30, 0⟩⟩ ∈
        ([⟨1, "a".toList, "b".toList, none, ⟨2024, 1, 1, 9, 30, 0⟩⟩,
          ⟨2, "c".toList, "d".toList, none, ⟨2024, 1, 2, 0, 0, 0⟩⟩] : List Post)
      ∧ dateOf ⟨2024, 1, 1, 9, 30, 0⟩ = ⟨2024, 1, 1⟩) :=
  (c6_listing
    ⟨[⟨1, "a".toList, "b".toList, none, ⟨2024, 1, 1, 9, 30, 0⟩⟩,
      ⟨2, "c".toList, "d".toList, none, ⟨2024, 1, 2, 0, 0, 0⟩⟩],
     [], [], 3, 1⟩ ⟨2024, 1, 1⟩).2.2.2.2.1
    ⟨1, "a".toList, "b".toList, none, ⟨2024, 1, 1, 9, 30, 0⟩⟩

/-! ### Round-trip claim -/

theorem create_post_success (env : Env) (s s' : BlogState) (req : CreateReq)
    (h : create_post env s req = (s', none)) :
    ∃ img, s'.posts
      = s.posts ++ [⟨s.nextPostId, trim req.title, trim req.body, img, env.now⟩] := by
  by_cases hval : trim req.title = [] ∨ trim req.body = []
  · exfalso
    rcases hval with hv | hv <;> simp [create_post, hv] at h
  · push_neg at hval
    obtain ⟨ht, hb⟩ := hval
    rcases himg : req.image with _ | f
    · refine ⟨none, ?_⟩
      simp [create_post, himg, ht, hb, Prod.ext_iff] at h
      rw [← h]
      rfl
    · by_cases hfn : f.filename = []
      · refine ⟨none, ?_⟩
        simp [create_post, himg, hfn, ht, hb, Prod.ext_iff] at h
        rw [← h]
        rfl
      · by_cases hok : allowed_file f.filename = true
        · refine ⟨some (composedName env f.filename), ?_⟩
          simp [create_post, himg, hfn, ht, hb, hok, Prod.ext_iff] at h
          rw [← h]
          rfl
        · exfalso
          have hno : allowed_file f.filename = false := by simpa using hok
          simp [create_post, himg, hfn, ht, hb, hno] at h

/-- **C7**: after a successful create, the stored row holds the trimmed
title and body and is stamped with the request's clock reading; two
successive successful creates under a non-decreasing clock store
non-decreasing `created_at` values. -/
theorem c7_roundtrip (env1 env2 : Env) (s s1 s2 : BlogState)
    (req1 req2 : CreateReq)
    (h1 : create_post env1 s req1 = (s1, none))
    (h2 : create_post env2 s1 req2 = (s2, none))
    (hclock : dtLe env1.now env2.now) :
    ∃ p1 p2 : Post,
      s1.posts = s.posts ++ [p1] ∧ s2.posts = s1.posts ++ [p2]
      ∧ p1.title = trim req1.title ∧ p1.body = trim req1.body
      ∧ p1.created_at = env1.now
      ∧ p2.title = trim req2.title ∧ p2.body = trim req2.body
      ∧ p2.created_at = env2.now
      ∧ dtLe p1.created_at p2.created_at := by
  obtain ⟨i1, hp1⟩ := create_post_success env1 s s1 req1 h1
  obtain ⟨i2, hp2⟩ := create_post_success env2 s1 s2 req2 h2
  exact ⟨_, _, hp1, hp2, rfl, rfl, rfl, rfl, rfl, rfl, hclock⟩

/-- Witness for C7: two concrete creations five seconds apart. -/
theorem c7_roundtrip_witness :
    ∃ p1 p2 : Post,
      (create_post ⟨⟨2024, 1, 1, 0, 0, 0⟩, "1".toList, fun x => x⟩ emptyState
        ⟨" t1 ".toList, "b1".toList, none⟩).1.posts = emptyState.posts ++ [p1]
      ∧ (create_post ⟨⟨2024, 1, 1, 0, 0, 5⟩, "2".toList, fun x => x⟩
          (create_post ⟨⟨2024, 1, 1, 0, 0, 0⟩, "1".toList, fun x => x⟩ emptyState
            ⟨" t1 ".toList, "b1".toList, none⟩).1
          ⟨"t2".toList, "b2".toList, none⟩).1.posts
        = (create_post ⟨⟨2024, 1, 1, 0, 0, 0⟩, "1".toList, fun x => x⟩ emptyState
            ⟨" t1 ".toList, "b1".toList, none⟩).1.posts ++ [p2]
      ∧ p1.title = trim " t1 ".toList ∧ p1.body = trim "b1".toList
      ∧ p1.created_at = ⟨2024, 1, 1, 0, 0, 0⟩
      ∧ p2.title = trim "t2".toList ∧ p2.body = trim "b2".toList
      ∧ p2.created_at = ⟨2024, 1, 1, 0, 0, 5⟩
      ∧ dtLe p1.created_at p2.created_at :=
  c7_roundtrip ⟨⟨2024, 1, 1, 0, 0, 0⟩, "1".toList, fun x => x⟩
    ⟨⟨2024, 1, 1, 0, 0, 5⟩, "2".toList, fun x => x⟩ emptyState _ _
    ⟨" t1 ".toList, "b1".toList, none⟩ ⟨"t2".toList, "b2".toList, none⟩
    rfl rfl (by decide)

/-! ### Trim idempotence and the store invariant -/

theorem dropWhile_head?_not {p : Char → Bool} : ∀ {l : List Char} {c : Char},
    (l.dropWhile p).head? = some c → p c = false := by
  intro l
  induction l with
  | nil => intro c h; simp at h
  | cons a as ih =>
    intro c h
    by_cases hpa : p a = true
    · rw [List.dropWhile_cons_of_pos hpa] at h
      exact ih h
    · rw [List.dropWhile_cons_of_neg hpa] at h
      injection h with h
      subst h
      simpa using hpa

theorem dropWhile_of_head?_not {p : Char → Bool} {l : List Char}
    (h : ∀ c, l.head? = some c → p c = false) : l.dropWhile p = l := by
  cases l with
  | nil => rfl
  | cons a as => exact List.dropWhile_cons_of_neg (by simp [h a rfl])

theorem dropWhile_suffix (p : Char → Bool) : ∀ l : List Char,
    l.dropWhile p <:+ l := by
  intro l
  induction l with
  | nil => exact List.suffix_refl []
  | cons a as ih =>
    by_cases hpa : p a = true
    · rw [List.dropWhile_cons_of_pos hpa]
      exact ih.trans (List.suffix_cons a as)
    · rw [List.dropWhile_cons_of_neg hpa]

theorem getLast?_of_suffix {l1 l2 : List Char} (h : l1 <:+ l2) (hne : l1 ≠ []) :
    l1.getLast? = l2.getLast? := by
  obtain ⟨t, rfl⟩ := h
  exact (List.getLast?_append_of_ne_nil t hne).symm

/-- Python's `strip()` is idempotent: a stripped string strips to itself. -/
theorem trim_idem (s : List Char) : trim (trim s) = trim s := by
  unfold trim
  by_cases hd : (s.dropWhile Char.isWhitespace).reverse.dropWhile Char.isWhitespace = []
  · rw [hd]
    rfl
  · have hv : s.dropWhile Char.isWhitespace ≠ [] := by
      intro hvnil
      apply hd
      rw [hvnil]
      rfl
    obtain ⟨c0, hc0⟩ : ∃ c0, (s.dropWhile Char.isWhitespace).head? = some c0 := by
      cases hh : s.dropWhile Char.isWhitespace with
      | nil => exact absurd hh hv
      | cons a as => exact ⟨a, rfl⟩
    have hc0w : Char.isWhitespace c0 = false := dropWhile_head?_not hc0
    have hlast : ((s.dropWhile Char.isWhitespace).reverse.dropWhile
        Char.isWhitespace).getLast? = some c0 := by
      rw [getLast?_of_suffix (dropWhile_suffix _ _) hd, List.getLast?_reverse]
      exact hc0
    have hstep1 : (((s.dropWhile Char.isWhitespace).reverse.dropWhile
          Char.isWhitespace).reverse).dropWhile Char.isWhitespace
        = ((s.dropWhile Char.isWhitespace).reverse.dropWhile
          Char.isWhitespace).reverse := by
      apply dropWhile_of_head?_not
      intro c h
      rw [List.head?_reverse, hlast] at h
      injection h with h
      subst h
      exact hc0w
    rw [hstep1, List.reverse_reverse,
      dropWhile_of_head?_not (fun c h => dropWhile_head?_not h)]

/-- A request-level operation of the service (the three mutating routes). -/
inductive Op : Type
  | createOp (env : Env) (req : CreateReq)
  | commentOp (now : DateTime) (pid : Nat) (req : CommentReq)
  | deleteOp (pid : Nat) (unlinkOk : Bool)

/-- The state after handling one request (errors leave the pre-abort
state). -/
def applyOp (s : BlogState) : Op → BlogState
  | .createOp env req => (create_post env s req).1
  | .commentOp now pid req => (add_comment now s pid req).1
  | .deleteOp pid ok => (delete_post s pid ok).1

/-- States reachable from the freshly initialised store by handling
requests. -/
inductive Reachable : BlogState → Prop
  | init : Reachable emptyState
  | step {s : BlogState} (op : Op) : Reachable s → Reachable (applyOp s op)

/-- The C8 store invariant: titles, bodies and comment bodies stay non-empty
after trimming, and every comment references a post present in the store. -/
def Inv (s : BlogState) : Prop :=
  (∀ p ∈ s.posts, trim p.title ≠ [] ∧ trim p.body ≠ [])
  ∧ (∀ c ∈ s.comments, trim c.body ≠ [])
  ∧ (∀ c ∈ s.comments, ∃ p ∈ s.posts, p.id = c.post_id)

theorem create_post_shape (env : Env) (s : BlogState) (req : CreateReq) :
    ((create_post env s req).1.posts = s.posts
      ∨ (trim req.title ≠ [] ∧ trim req.body ≠ []
        ∧ ∃ img, (create_post env s req).1.posts
          = s.posts ++ [⟨s.nextPostId, trim req.title, trim req.body, img, env.now⟩]))
    ∧ (create_post env s req).1.comments = s.comments := by
  by_cases hval : trim req.title = [] ∨ trim req.body = []
  · constructor
    · rcases hval with hv | hv <;> left <;> simp [create_post, hv]
    · rcases hval with hv | hv <;> simp [create_post, hv]
  · push_neg at hval
    obtain ⟨ht, hb⟩ := hval
    rcases himg : req.image with _ | f
    · exact ⟨Or.inr ⟨ht, hb, none, by simp [create_post, himg, ht, hb]; rfl⟩,
        by simp [create_post, himg, ht, hb]; rfl⟩
    · by_cases hfn : f.filename = []
      · exact ⟨Or.inr ⟨ht, hb, none, by simp [create_post, himg, hfn, ht, hb]; rfl⟩,
          by simp [create_post, himg, hfn, ht, hb]; rfl⟩
      · by_cases hok : allowed_file f.filename = true
        · exact ⟨Or.inr ⟨ht, hb, some (composedName env f.filename),
            by simp [create_post, himg, hfn, ht, hb, hok]; rfl⟩,
            by simp [create_post, himg, hfn, ht, hb, hok]; rfl⟩
        · have hno : allowed_file f.filename = false := by simpa using hok
          exact ⟨Or.inl (by simp [create_post, himg, hfn, ht, hb, hno]),
            by simp [create_post, himg, hfn, ht, hb, hno]⟩

theorem add_comment_shape (now : DateTime) (s : BlogState) (pid : Nat)
    (req : CommentReq) :
    (add_comment now s pid req).1 = s
    ∨ (trim (req.body.getD []) ≠ []
      ∧ (∃ p ∈ s.posts, p.id = pid)
      ∧ (add_comment now s pid req).1.posts = s.posts
      ∧ ∃ a, (add_comment now s pid req).1.comments
        = s.comments ++ [⟨s.nextCommentId, pid, a, trim (req.body.getD []), now⟩]) := by
  by_cases hbody : trim (req.body.getD []) = []
  · exact Or.inl (by simp [add_comment, hbody])
  · rcases hfind : s.posts.find? (fun p => p.id == pid) with _ | post
    · exact Or.inl (by simp [add_comment, hbody, hfind])
    · refine Or.inr ⟨hbody, ⟨post, List.mem_of_find?_eq_some hfind, ?_⟩, ?_, ?_⟩
      · simpa using List.find?_some hfind
      · simp [add_comment, hbody, hfind, insertComment]
      · exact ⟨if trim (req.author.getD "Anonymous".toList) = []
            then "Anonymous".toList else trim (req.author.getD "Anonymous".toList),
          by simp [add_comment, hbody, hfind, insertComment]⟩

theorem delete_post_shape (s : BlogState) (pid : Nat) (ok : Bool) :
    (delete_post s pid ok).1 = s
    ∨ ((delete_post s pid ok).1.posts = s.posts.filter (fun p => !(p.id == pid))
      ∧ (delete_post s pid ok).1.comments
        = s.comments.filter (fun c => !(c.post_id == pid))) := by
  rcases hfind : s.posts.find? (fun p => p.id == pid) with _ | post
  · exact Or.inl (by simp [delete_post, hfind])
  · exact Or.inr (delete_post_found_db s pid ok post hfind)

/-- **C8**: every reachable store satisfies the invariant — titles/bodies
and comment bodies are non-empty after trimming, and every comment
references a post present in the store; moreover a successful add-comment
references a post that exists at the moment of insertion (the handler's
explicit check — the store's `insertComment` itself checks nothing). -/
theorem c8_invariant (s : BlogState) (hr : Reachable s) :
    Inv s
    ∧ (∀ (now : DateTime) (t : BlogState) (pid : Nat) (req : CommentReq),
        (add_comment now t pid req).2 = none →
        (∃ p ∈ t.posts, p.id = pid)
        ∧ ∃ a c, (add_comment now t pid req).1.comments = t.comments ++ [c]
          ∧ c.post_id = pid ∧ c.author = a) := by
  constructor
  · induction hr with
    | init => exact ⟨by simp [emptyState], by simp [emptyState], by simp [emptyState]⟩
    | step op hs ih =>
      rename_i s0
      obtain ⟨ihp, ihc, ihr⟩ := ih
      cases op with
      | createOp env req =>
        show Inv (create_post env s0 req).1
        obtain ⟨hp, hc⟩ := create_post_shape env s0 req
        rcases hp with hp | ⟨ht, hb, img, hp⟩
        · exact ⟨hp ▸ ihp, hc ▸ ihc, by
            rw [hp, hc] at *
            exact fun c hcm => (ihr c (hc ▸ hcm)).imp (fun p => id) ⟩
        · refine ⟨?_, hc ▸ ihc, ?_⟩
          · intro p hpm
            rw [hp] at hpm
            rcases List.mem_append.mp hpm with h | h
            · exact ihp p h
            · rcases List.mem_singleton.mp h with rfl
              exact ⟨by rw [trim_idem]; exact ht, by rw [trim_idem]; exact hb⟩
          · intro c hcm
            obtain ⟨p, hpm, hpe⟩ := ihr c (hc ▸ hcm)
            exact ⟨p, hp ▸ List.mem_append.mpr (Or.inl hpm), hpe⟩
      | commentOp now pid req =>
        show Inv (add_comment now s0 pid req).1
        rcases add_comment_shape now s0 pid req with h | ⟨hbody, hex, hp, a, hc⟩
        · rw [h]
          exact ⟨ihp, ihc, ihr⟩
        · refine ⟨hp ▸ ihp, ?_, ?_⟩
          · intro c hcm
            rw [hc] at hcm
            rcases List.mem_append.mp hcm with h | h
            · exact ihc c h
            · rcases List.mem_singleton.mp h with rfl
              rw [trim_idem]
              exact hbody
          · intro c hcm
            rw [hc] at hcm
            rcases List.mem_append.mp hcm with h | h
            · obtain ⟨p, hpm, hpe⟩ := ihr c h
              exact ⟨p, hp ▸ hpm, hpe⟩
            · rcases List.mem_singleton.mp h with rfl
              obtain ⟨p, hpm, hpe⟩ := hex
              exact ⟨p, hp ▸ hpm, hpe⟩
      | deleteOp pid ok =>
        show Inv (delete_post s0 pid ok).1
        rcases delete_post_shape s0 pid ok with h | ⟨hp, hc⟩
        · rw [h]
          exact ⟨ihp, ihc, ihr⟩
        · refine ⟨?_, ?_, ?_⟩
          · intro p hpm
            exact ihp p (List.mem_filter.mp (hp ▸ hpm)).1
          · intro c hcm
            exact ihc c (List.mem_filter.mp (hc ▸ hcm)).1
          · intro c hcm
            rw [hc, List.mem_filter] at hcm
            obtain ⟨hcm, hne⟩ := hcm
            obtain ⟨p, hpm, hpe⟩ := ihr c hcm
            refine ⟨p, ?_, hpe⟩
            rw [hp, List.mem_filter]
            refine ⟨hpm, ?_⟩
            simp only [Bool.not_eq_true']
            simp only [Bool.not_eq_true'] at hne
            rw [hpe]
            exact hne
  · intro now t pid req hsucc
    rcases add_comment_shape now t pid req with h | ⟨hbody, hex, hp, a, hc⟩
    · exfalso
      by_cases hbody : trim (req.body.getD []) = []
      · have : (add_comment now t pid req).2 = some Err.emptyCommentBody := by
          simp [add_comment, hbody]
        rw [hsucc] at this
        exact Option.noConfusion this
      · rcases hfind : t.posts.find? (fun p => p.id == pid) with _ | post
        · have : (add_comment now t pid req).2 = some Err.notFound := by
            simp [add_comment, hbody, hfind]
          rw [hsucc] at this
          exact Option.noConfusion this
        · have : (add_comment now t pid req).1.comments
              = t.comments ++ [⟨t.nextCommentId, pid,
                if trim (req.author.getD "Anonymous".toList) = []
                  then "Anonymous".toList
                  else trim (req.author.getD "Anonymous".toList),
                trim (req.body.getD []), now⟩] := by
            simp [add_comment, hbody, hfind, insertComment]
          rw [h] at this
          have hlen := congrArg List.length this
          simp at hlen
    · exact ⟨hex, a, _, hc, rfl, rfl⟩

/-- Witness for C8: the invariant holds of the store reached by one
successful create followed by one successful comment. -/
theorem c8_invariant_witness :
    Inv (applyOp (applyOp emptyState
      (Op.createOp ⟨⟨2024, 1, 1, 0, 0, 0⟩, "1".toList, fun x => x⟩
        ⟨"t".toList, "b".toList, none⟩))
      (Op.commentOp ⟨2024, 1, 1, 0, 1, 0⟩ 1 ⟨none, some "hi".toList⟩)) :=
  (c8_invariant _ (Reachable.step _ (Reachable.step _ Reachable.init))).1

example : is_private_ip "172.16.0.1".toList = true := by decide
example : is_private_ip "172.15.0.1".toList = false := by decide
example : is_private_ip "172.31.255.255".toList = true := by decide
example : is_private_ip "172.32.0.1".toList = false := by decide
example : is_private_ip "8.8.8.8".toList = false := by decide
example : is_private_ip "192.168.7.9".toList = true := by decide
example : is_private_ip "127.0.0.1".toList = true := by decide
example : is_private_ip "10.1.2.3".toList = true := by decide
example : is_private_ip "172.abc.0.1".toList = false := by decide
example : pyInt? " +16 ".toList = some 16 := by decide
example : pyInt? "1_6".toList = some 16 := by decide
example : pyInt? "1__6".toList = none := by decide
example : pyInt? "".toList = none := by decide
example : trim "  a b  ".toList = "a b".toList := by decide
example : splitOnChar '.' "172.16.0.1".toList
    = ["172".toList, "16".toList, "0".toList, "1".toList] := by decide

end Blog
